import Mathlib

/-!
Verification development for the `denkhaus/es` Elasticsearch wrapper
(`core/client.go`).  The Go functions are shallowly embedded as pure Lean
functions; all engine-side behaviour (HTTP transport, scroll pages,
regexp compilation, JSON decoding) is supplied through explicit
environment values, so every run of an embedded function corresponds to
one run of the Go function under a fixed sequence of external outcomes.
-/

namespace ES

/-- Error messages carried by Go `error` values (opaque to the wrapper). -/
abbrev ErrMsg := String

/-- Go error values as the wrapper builds them: either an underlying error
(`errors.Errorf` / transport error) or `errors.Wrap(err, tag)`. -/
inductive GoErr where
  | base (msg : ErrMsg)
  | wrap (tag : String) (e : GoErr)
deriving DecidableEq, Repr

/-- One page returned by `ScrollService.Do`: the raw hit payloads
(`res.Hits.Hits`, payloads abstracted as `Nat`), the server-reported
total (`res.Hits.TotalHits.Value`), and the next scroll id
(`res.ScrollId`). -/
structure Page where
  hits : List Nat
  total : Int
  scrollId : String
deriving DecidableEq, Repr

/-- Outcome of one `svc.Do(ctx)` call inside the enumeration loop
(`client.go:227`): a page, `io.EOF` (end of stream), or another
transport error. -/
inductive FetchResult where
  | page (p : Page)
  | eof
  | fail (msg : ErrMsg)
deriving DecidableEq, Repr

/-- Environment of one `EnumerateItems` run: the successive `svc.Do`
outcomes paired with whether `ctx.Done()` is ready at that iteration's
`select` (`client.go:249-253`), and the outcome of the final
`ClearScroll` request when one is actually issued (`none` = success). -/
structure EnumEnv where
  steps : List (FetchResult × Bool)
  clearErr : Option ErrMsg
deriving DecidableEq, Repr

/-- One callback invocation as delivered to `onItem`
(`client.go:243`): the payload, the running ordinal `nCurrentItem`,
the server total `nTotalItems`, and the `commit` flag. -/
structure CallRec where
  item : Nat
  nCurrentItem : Int
  nTotalItems : Int
  commit : Bool
deriving DecidableEq, Repr

/-- Trace of one fetched page: the hits the page carried and the calls
actually delivered to the callback for it. -/
structure PageTrace where
  hits : List Nat
  calls : List CallRec
deriving DecidableEq, Repr

/-- How the `for len(errs.Errors) == 0` loop ended. -/
inductive LoopExit where
  | eof
  | fetchErr
  | onItemErr
  | cancel
deriving DecidableEq, Repr

/-- The value `EnumerateItems` returns: `nil`, a `*multierror.Error`
carrying the accumulated list (via `errs.ErrorOrNil()`), or `ctx.Err()`
returned directly from the cancellation branch. -/
inductive EnumReturn where
  | nil
  | multi (errs : List GoErr)
  | ctxErr
deriving DecidableEq, Repr

/-- Result of `processHits`: delivered calls, final `nCurrentItem`, and
the wrapped callback error if one occurred. -/
structure HitsOut where
  calls : List CallRec
  n : Int
  errOpt : Option GoErr
deriving DecidableEq, Repr

/-- The inner `for idx, hit := range hits` loop of `EnumerateItems`
(`client.go:240-247`): increment `nCurrentItem`, compute
`commit := idx == nBatchItems-1`, call `onItem`, and on a callback error
wrap it with tag `"onItem"` and break. -/
def processHits (f : Nat → Int → Int → Bool → Option ErrMsg)
    (nBatch nTotalItems : Int) :
    List Nat → Int → Int → HitsOut
  | [], _, n => ⟨[], n, none⟩
  | h :: rest, idx, n =>
    let nCur := n + 1
    let commit : Bool := idx == nBatch - 1
    match f h nCur nTotalItems commit with
    | some msg =>
        ⟨[⟨h, nCur, nTotalItems, commit⟩], nCur,
          some (GoErr.wrap "onItem" (GoErr.base msg))⟩
    | none =>
        let r := processHits f nBatch nTotalItems rest (idx + 1) nCur
        ⟨⟨h, nCur, nTotalItems, commit⟩ :: r.calls, r.n, r.errOpt⟩

/-- State of the scroll loop when it stops (or `exit = none` when the
environment provides too few fetch outcomes to finish the run). -/
structure LoopOut where
  pages : List PageTrace
  fetchCount : Nat
  nFinal : Int
  scrollId : String
  errs : List GoErr
  exit : Option LoopExit
deriving DecidableEq, Repr

/-- The outer `for len(errs.Errors) == 0` loop of `EnumerateItems`
(`client.go:222-254`): fetch a page, on `io.EOF` break without an error,
on another fetch error append `errors.Wrap(err, "Do")` and break,
otherwise deliver the hits, then check cancellation; when `ctx.Done()`
is ready the Go code returns `ctx.Err()` immediately. -/
def enumLoop (f : Nat → Int → Int → Bool → Option ErrMsg) :
    List (FetchResult × Bool) → Int → String → LoopOut
  | [], n, sid => ⟨[], 0, n, sid, [], none⟩
  | (step, done) :: rest, n, sid =>
    match step with
    | FetchResult.fail msg =>
        ⟨[], 1, n, sid, [GoErr.wrap "Do" (GoErr.base msg)], some LoopExit.fetchErr⟩
    | FetchResult.eof =>
        ⟨[], 1, n, sid, [], some LoopExit.eof⟩
    | FetchResult.page p =>
        let pr := processHits f (p.hits.length : Int) p.total p.hits 0 n
        let pt : PageTrace := ⟨p.hits, pr.calls⟩
        if done then
          ⟨[pt], 1, pr.n, p.scrollId, pr.errOpt.toList, some LoopExit.cancel⟩
        else
          match pr.errOpt with
          | some e => ⟨[pt], 1, pr.n, p.scrollId, [e], some LoopExit.onItemErr⟩
          | none =>
              let r := enumLoop f rest pr.n p.scrollId
              ⟨pt :: r.pages, r.fetchCount + 1, r.nFinal, r.scrollId, r.errs, r.exit⟩

/-- `ClearScroll` (`client.go:195-205`): releasing an empty scroll id is
a no-op returning `nil`; otherwise the underlying request's outcome is
returned unchanged. -/
def ClearScroll (scrollId : String) (clearErr : Option ErrMsg) : Option ErrMsg :=
  if scrollId = "" then none else clearErr

/-- `errs.ErrorOrNil()` of `hashicorp/go-multierror`: `nil` exactly when
no error was accumulated, otherwise the aggregate itself. -/
def errorOrNil (errs : List GoErr) : EnumReturn :=
  if errs = [] then EnumReturn.nil else EnumReturn.multi errs

/-- Lines 256-258 of `client.go`: a failed final `ClearScroll` is
appended, wrapped with tag `"ClearScroll"`, to the already accumulated
aggregate. -/
def clearAppend (errs : List GoErr) (sid : String) (clearErr : Option ErrMsg) :
    List GoErr :=
  match ClearScroll sid clearErr with
  | some msg => errs ++ [GoErr.wrap "ClearScroll" (GoErr.base msg)]
  | none => errs

/-- Complete observable record of one `EnumerateItems` run. -/
structure EnumRun where
  pages : List PageTrace
  fetchCount : Nat
  nFinal : Int
  loopErrs : List GoErr
  errs : List GoErr
  exit : LoopExit
  ret : EnumReturn
deriving DecidableEq, Repr

/-- `EnumerateItems` (`client.go:207-261`).  After the loop stops, the
cancellation branch returns `ctx.Err()` directly (skipping the final
`ClearScroll` call at line 256); every other exit releases the cursor
and appends a failed release, wrapped with tag `"ClearScroll"`, to the
same aggregate before `errs.ErrorOrNil()` is returned.  `none` means the
environment listed too few fetch outcomes for the run to finish. -/
def EnumerateItems (env : EnumEnv) (f : Nat → Int → Int → Bool → Option ErrMsg) :
    Option EnumRun :=
  let lo := enumLoop f env.steps 0 ""
  match lo.exit with
  | none => none
  | some LoopExit.cancel =>
      some ⟨lo.pages, lo.fetchCount, lo.nFinal, lo.errs, lo.errs,
        LoopExit.cancel, EnumReturn.ctxErr⟩
  | some ex =>
      let finalErrs := clearAppend lo.errs lo.scrollId env.clearErr
      some ⟨lo.pages, lo.fetchCount, lo.nFinal, lo.errs, finalErrs, ex,
        errorOrNil finalErrs⟩

/-- Append further fetch outcomes to an environment (used to express
that a finished run fetches nothing further). -/
def extendEnv (env : EnumEnv) (extra : List (FetchResult × Bool)) : EnumEnv :=
  ⟨env.steps ++ extra, env.clearErr⟩

/-- All callback invocations of a loop trace, in delivery order. -/
def loopCalls (lo : LoopOut) : List CallRec :=
  (lo.pages.map PageTrace.calls).flatten

/-- All callback invocations of a finished run, in delivery order. -/
def runCalls (r : EnumRun) : List CallRec :=
  (r.pages.map PageTrace.calls).flatten

/-- The hit-loop result for one fetched page. -/
def pageHits (f : Nat → Int → Int → Bool → Option ErrMsg) (p : Page) (n : Int) :
    HitsOut :=
  processHits f (p.hits.length : Int) p.total p.hits 0 n

/-! ### Point lookups: `UnmarshalOne` and `UnmarshalMostRecent` -/

/-- The part of a `SearchResult` the two point lookups inspect:
`res.TotalHits()` (the reported `res.Hits.TotalHits.Value`) and the raw
`res.Hits.Hits` payloads (abstracted as `Nat`). -/
structure SearchHits where
  total : Int
  hits : List Nat
deriving DecidableEq, Repr

/-- Outcome of the `svc.Do(ctx)` search request. -/
inductive SearchDo where
  | ok (res : SearchHits)
  | err (msg : ErrMsg)
deriving DecidableEq, Repr

/-- What `UnmarshalOne` / `UnmarshalMostRecent` can do: return a wrapped
transport error, return `ErrEmptyResult`, panic with an index
out-of-range on `res.Hits.Hits[0]`, return a wrapped decode error, or
succeed after decoding the first hit. -/
inductive UnmarshalOut where
  | doErr (e : GoErr)
  | emptyResult
  | indexOOB
  | decodeErr (e : GoErr)
  | okDecoded (src : Nat)
deriving DecidableEq, Repr

/-- `json.Unmarshal` was invoked on a hit payload in this outcome. -/
def decodeAttempted : UnmarshalOut → Bool
  | UnmarshalOut.decodeErr _ => true
  | UnmarshalOut.okDecoded _ => true
  | _ => false

/-- `UnmarshalOne` (`client.go:111-139`): run the size-1 search, wrap a
failed request with tag `"Do"`, return `ErrEmptyResult` when
`res.TotalHits() == 0`, and otherwise decode `res.Hits.Hits[0].Source`
(an out-of-range panic when the hits slice is empty); a decode failure
is wrapped with tag `"Unmarshal"`.  `decode h = some msg` models
`json.Unmarshal` failing on payload `h`. -/
def UnmarshalOne (d : SearchDo) (decode : Nat → Option ErrMsg) : UnmarshalOut :=
  match d with
  | SearchDo.err msg => UnmarshalOut.doErr (GoErr.wrap "Do" (GoErr.base msg))
  | SearchDo.ok res =>
      if res.total = 0 then UnmarshalOut.emptyResult
      else
        match res.hits with
        | [] => UnmarshalOut.indexOOB
        | h :: _ =>
            match decode h with
            | some msg => UnmarshalOut.decodeErr (GoErr.wrap "Unmarshal" (GoErr.base msg))
            | none => UnmarshalOut.okDecoded h

/-- `UnmarshalMostRecent` (`client.go:141-173`): identical to
`UnmarshalOne` except that the search is additionally sorted descending
on `timestampField`; the sort only shapes the engine's response, which
is already the `SearchDo` environment here. -/
def UnmarshalMostRecent (_timestampField : String) (d : SearchDo)
    (decode : Nat → Option ErrMsg) : UnmarshalOut :=
  match d with
  | SearchDo.err msg => UnmarshalOut.doErr (GoErr.wrap "Do" (GoErr.base msg))
  | SearchDo.ok res =>
      if res.total = 0 then UnmarshalOut.emptyResult
      else
        match res.hits with
        | [] => UnmarshalOut.indexOOB
        | h :: _ =>
            match decode h with
            | some msg => UnmarshalOut.decodeErr (GoErr.wrap "Unmarshal" (GoErr.base msg))
            | none => UnmarshalOut.okDecoded h

/-! ### Index-name discovery: `GetIndices`

The catalog request, the regexp engine and the response body are
environment values; `compile` models `regexp.Compile` as either a
failure or a `FindString` function returning the matched substring
(`""` when the line has no match), exactly the API surface
`GetIndices` uses. -/

/-- Environment of one `GetIndices` call: outcome of
`http.NewRequest` (`some e` = failure), outcome of `client.Do`
(`none` = transport failure, `some lines` = response body split into
lines), and the regexp engine. -/
structure CatEnv where
  newReqErr : Option ErrMsg
  httpDo : Option (List String)
  compile : String → Option (String → String)

/-- The pattern `GetIndices` builds per input entry
(`client.go:68`): `"\\s" + prefix + "-(\\d)*\\s"`. -/
def catPattern (pfx : String) : String := "\\s" ++ pfx ++ "-(\\d)*\\s"

/-- `result[key] = append(result[key], v)` on the Go map, modelled on an
association list: append to the key's vector, or add the key. -/
def mapAppend (m : List (String × List String)) (k v : String) :
    List (String × List String) :=
  match m with
  | [] => [(k, [v])]
  | (k1, vs) :: rest =>
      if k1 = k then (k, vs ++ [v]) :: rest else (k1, vs) :: mapAppend rest k v

/-- The ASCII part of Unicode `White_Space`, the class
`strings.TrimSpace` trims. -/
def asciiSpace (c : Char) : Bool :=
  c = ' ' || c = '\t' || c = '\n' || c = '\u000B' || c = '\u000C' || c = '\r'

/-- `strings.TrimSpace` restricted to the ASCII whitespace our matches
can carry. -/
def trimSpace (s : String) : String :=
  String.mk (((s.toList.dropWhile asciiSpace).reverse.dropWhile
    asciiSpace).reverse)

/-- The inner `for _, line := range lines` loop of `GetIndices`
(`client.go:72-77`): run `FindString` on each line and collect trimmed
non-empty matches, in line order. -/
def matchPfx (find : String → String) (pfx : String) :
    List String → List (String × List String) → List (String × List String)
  | [], acc => acc
  | line :: rest, acc =>
      let m := find line
      if m.length ≠ 0 then matchPfx find pfx rest (mapAppend acc pfx (trimSpace m))
      else matchPfx find pfx rest acc

/-- The outer `for _, prefix := range prefixes` loop of `GetIndices`
(`client.go:67-78`): a pattern-compile failure returns the accumulated
`result` with a `nil` error immediately, abandoning the remaining
entries of the input list. -/
def pfxLoop (compile : String → Option (String → String)) (lines : List String) :
    List String → List (String × List String) →
    List (String × List String) × Option GoErr
  | [], acc => (acc, none)
  | pfx :: rest, acc =>
      match compile (catPattern pfx) with
      | none => (acc, none)
      | some find => pfxLoop compile lines rest (matchPfx find pfx lines acc)

/-- `GetIndices` (`client.go:42-81`): a failed `http.NewRequest` returns
`nil, errors.Wrap(err, "NewRequest")`; a failed `client.Do` returns the
(still empty) result with a `nil` error; otherwise the catalog lines are
matched per input entry. -/
def GetIndices (env : CatEnv) (pfxs : List String) :
    List (String × List String) × Option GoErr :=
  match env.newReqErr with
  | some e => ([], some (GoErr.wrap "NewRequest" (GoErr.base e)))
  | none =>
      match env.httpDo with
      | none => ([], none)
      | some lines => pfxLoop env.compile lines pfxs []

/-! ### A concrete regexp engine for literal catalog patterns

`regexp.Compile("\\s" + prefix + "-(\\d)*\\s")` is third-party code; for
the closed test cases we realise it for the two situations the claims
exercise: a prefix made of alphanumeric characters compiles to a
leftmost matcher of `\s prefix -(\d)* \s` (each class disjoint, so the
greedy scan below is exact), and any other built pattern (for instance
the unbalanced one built from the prefix `"("`) fails to compile. -/

/-- The `\s` character class of Go's regexp: `[\t\n\f\r ]`. -/
def regexSpace (c : Char) : Bool :=
  c = '\t' || c = '\n' || c = '\u000C' || c = '\r' || c = ' '

/-- Match a literal character list at the head of the input. -/
def dropLit : List Char → List Char → Option (List Char)
  | [], s => some s
  | _ :: _, [] => none
  | c :: cs, d :: ds => if c = d then dropLit cs ds else none

/-- Try to match `\s pfx -(\d)*\s` exactly at the head of the input,
returning the matched text. -/
def matchAt (pfx : List Char) : List Char → Option (List Char)
  | [] => none
  | c :: rest =>
      if regexSpace c then
        match dropLit pfx rest with
        | none => none
        | some r1 =>
            match r1 with
            | '-' :: r2 =>
                let digs := r2.takeWhile Char.isDigit
                match r2.dropWhile Char.isDigit with
                | [] => none
                | d :: _ =>
                    if regexSpace d then
                      some (c :: (pfx ++ '-' :: (digs ++ [d])))
                    else none
            | _ => none
      else none

/-- Leftmost search of `matchAt` over the input, `[]` when no position
matches (`FindString` returns `""` on no match). -/
def findFrom (pfx : List Char) : List Char → List Char
  | [] => []
  | c :: rest =>
      match matchAt pfx (c :: rest) with
      | some m => m
      | none => findFrom pfx rest

/-- `FindString` of the compiled pattern for an alphanumeric `pfx`. -/
def findCat (pfx line : String) : String :=
  String.mk (findFrom pfx.toList line.toList)

/-- Recover the prefix from a built pattern when, and only when, the
prefix is a nonempty alphanumeric literal. -/
def decodeCatPat (pat : String) : Option String :=
  match pat.toList with
  | '\\' :: 's' :: rest =>
      let p := rest.takeWhile Char.isAlphanum
      let tail := rest.dropWhile Char.isAlphanum
      if p ≠ [] ∧ tail = ['-', '(', '\\', 'd', ')', '*', '\\', 's'] then
        some (String.mk p)
      else none
  | _ => none

/-- The concrete `regexp.Compile` model used by the closed test cases. -/
def catCompile (pat : String) : Option (String → String) :=
  (decodeCatPat pat).map (fun p line => findCat p line)

/-! ### Concrete runs used by the closed statements -/

/-- A callback that always succeeds. -/
def fNone : Nat → Int → Int → Bool → Option ErrMsg := fun _ _ _ _ => none

/-- One one-hit page, then a transport failure; releasing the cursor
fails as well. -/
def envA : EnumEnv :=
  ⟨[(FetchResult.page ⟨[5], 1, "s1"⟩, false), (FetchResult.fail "net", false)],
    some "cboom"⟩

/-- The run `EnumerateItems envA fNone` produces. -/
def runA : EnumRun :=
  ⟨[⟨[5], [⟨5, 1, 1, true⟩]⟩], 2, 1,
    [GoErr.wrap "Do" (GoErr.base "net")],
    [GoErr.wrap "Do" (GoErr.base "net"), GoErr.wrap "ClearScroll" (GoErr.base "cboom")],
    LoopExit.fetchErr,
    EnumReturn.multi
      [GoErr.wrap "Do" (GoErr.base "net"),
        GoErr.wrap "ClearScroll" (GoErr.base "cboom")]⟩

/-- Two pages then end-of-stream, no failures anywhere. -/
def envB : EnumEnv :=
  ⟨[(FetchResult.page ⟨[3, 4], 5, "a"⟩, false),
    (FetchResult.page ⟨[7], 5, "b"⟩, false),
    (FetchResult.eof, false)], none⟩

/-- The run `EnumerateItems envB fNone` produces. -/
def runB : EnumRun :=
  ⟨[⟨[3, 4], [⟨3, 1, 5, false⟩, ⟨4, 2, 5, true⟩]⟩,
    ⟨[7], [⟨7, 3, 5, true⟩]⟩], 3, 3, [], [],
    LoopExit.eof, EnumReturn.nil⟩

/-- One two-hit page whose first callback invocation fails. -/
def envC : EnumEnv := ⟨[(FetchResult.page ⟨[7, 8], 2, "s"⟩, false)], none⟩

/-- A callback failing on the very first delivered item. -/
def fBoom : Nat → Int → Int → Bool → Option ErrMsg :=
  fun _ n _ _ => if n == 1 then some "boom" else none

/-- The run `EnumerateItems envC fBoom` produces: the two-hit page is
cut short after its first item. -/
def runC : EnumRun :=
  ⟨[⟨[7, 8], [⟨7, 1, 2, false⟩]⟩], 1, 1,
    [GoErr.wrap "onItem" (GoErr.base "boom")],
    [GoErr.wrap "onItem" (GoErr.base "boom")],
    LoopExit.onItemErr,
    EnumReturn.multi [GoErr.wrap "onItem" (GoErr.base "boom")]⟩

/-- The single (cut short) page trace of `runC`. -/
def ptC : PageTrace := ⟨[7, 8], [⟨7, 1, 2, false⟩]⟩

/-- The single delivered call of `runC`. -/
def cC : CallRec := ⟨7, 1, 2, false⟩

/-- A full page with cancellation observed at its page boundary; the
environment offers one further fetch outcome that must stay unused. -/
def envD : EnumEnv :=
  ⟨[(FetchResult.page ⟨[1, 2], 9, "sc"⟩, true), (FetchResult.eof, false)],
    some "cb"⟩

/-- The run `EnumerateItems envD fNone` produces. -/
def runD : EnumRun :=
  ⟨[⟨[1, 2], [⟨1, 1, 9, false⟩, ⟨2, 2, 9, true⟩]⟩], 1, 2, [], [],
    LoopExit.cancel, EnumReturn.ctxErr⟩

/-- A catalog body as `_cat/indices?v&s=index` renders it: a header
line, then one line per index, sorted by index name. -/
def catalogLines : List String :=
  ["health status index uuid pri rep docs.count docs.deleted store.size pri.store.size",
   "green open alpha-0 Hx1 1 1 10 0 1kb 1kb",
   "green open alpha-1 Hx2 1 1 12 0 2kb 2kb",
   "green open gamma-0 Hx3 1 1 7 0 1kb 1kb"]

/-- Discovery environment with a healthy transport and the catalog. -/
def envCat : CatEnv := ⟨none, some catalogLines, catCompile⟩

/-- Discovery environment whose `client.Do` fails. -/
def envCatDoFail : CatEnv := ⟨none, none, catCompile⟩

/-- Discovery environment whose `http.NewRequest` fails. -/
def envCatReqFail : CatEnv := ⟨some "badreq", some catalogLines, catCompile⟩

/-- Discovery environment with a one-line catalog carrying `alpha-0`. -/
def envCatSmall : CatEnv := ⟨none, some [" alpha-0 x"], catCompile⟩

/-- A decoder that always succeeds. -/
def decNone : Nat → Option ErrMsg := fun _ => none

/-- A search response reporting zero total hits. -/
def resZero : SearchHits := ⟨0, []⟩

/-- A search response reporting three total hits while carrying an
empty hits array. -/
def resPhantom : SearchHits := ⟨3, []⟩

/-! ## Lemmas about the inner hit loop -/

theorem processHits_n_eq (f : Nat → Int → Int → Bool → Option ErrMsg) (b t : Int) :
    ∀ (hits : List Nat) (idx n : Int),
      (processHits f b t hits idx n).n =
        n + (processHits f b t hits idx n).calls.length := by
  intro hits
  induction hits with
  | nil => intro idx n; simp [processHits]
  | cons h rest ih =>
      intro idx n
      simp only [processHits]
      cases hf : f h (n + 1) t (idx == b - 1) with
      | some msg => simp
      | none =>
          have h1 := ih (idx + 1) (n + 1)
          simp only [List.length_cons, h1]
          push_cast
          ring

theorem processHits_length_le (f : Nat → Int → Int → Bool → Option ErrMsg)
    (b t : Int) :
    ∀ (hits : List Nat) (idx n : Int),
      (processHits f b t hits idx n).calls.length ≤ hits.length := by
  intro hits
  induction hits with
  | nil => intro idx n; simp [processHits]
  | cons h rest ih =>
      intro idx n
      simp only [processHits]
      cases hf : f h (n + 1) t (idx == b - 1) with
      | some msg => simp
      | none =>
          have h1 := ih (idx + 1) (n + 1)
          simp only [List.length_cons]
          omega

theorem processHits_none_full (f : Nat → Int → Int → Bool → Option ErrMsg)
    (b t : Int) :
    ∀ (hits : List Nat) (idx n : Int),
      (processHits f b t hits idx n).errOpt = none →
      (processHits f b t hits idx n).calls.length = hits.length := by
  intro hits
  induction hits with
  | nil => intro idx n _; simp [processHits]
  | cons h rest ih =>
      intro idx n
      simp only [processHits]
      cases hf : f h (n + 1) t (idx == b - 1) with
      | some msg => simp
      | none =>
          intro he
          have h1 := ih (idx + 1) (n + 1) he
          simp only [List.length_cons]
          omega

theorem processHits_errOpt_shape (f : Nat → Int → Int → Bool → Option ErrMsg)
    (b t : Int) :
    ∀ (hits : List Nat) (idx n : Int),
      (processHits f b t hits idx n).errOpt = none ∨
      ∃ m, (processHits f b t hits idx n).errOpt =
        some (GoErr.wrap "onItem" (GoErr.base m)) := by
  intro hits
  induction hits with
  | nil => intro idx n; simp [processHits]
  | cons h rest ih =>
      intro idx n
      simp only [processHits]
      cases hf : f h (n + 1) t (idx == b - 1) with
      | some msg => exact Or.inr ⟨msg, rfl⟩
      | none => exact ih (idx + 1) (n + 1)

theorem processHits_get (f : Nat → Int → Int → Bool → Option ErrMsg) (b t : Int) :
    ∀ (hits : List Nat) (idx n : Int) (i : Nat) (c : CallRec),
      (processHits f b t hits idx n).calls[i]? = some c →
      c.nCurrentItem = n + (i : Int) + 1 ∧
      c.nTotalItems = t ∧
      c.commit = (idx + (i : Int) == b - 1) := by
  intro hits
  induction hits with
  | nil => intro idx n i c hc; simp [processHits] at hc
  | cons h rest ih =>
      intro idx n i c hc
      simp only [processHits] at hc
      cases hf : f h (n + 1) t (idx == b - 1) with
      | some msg =>
          rw [hf] at hc
          cases i with
          | zero =>
              simp at hc
              subst hc
              refine ⟨by simp, rfl, ?_⟩
              simp
          | succ j => simp at hc
      | none =>
          rw [hf] at hc
          cases i with
          | zero =>
              simp at hc
              subst hc
              refine ⟨by simp, rfl, ?_⟩
              simp
          | succ j =>
              simp only [List.getElem?_cons_succ] at hc
              have h1 := ih (idx + 1) (n + 1) j c hc
              refine ⟨?_, h1.2.1, ?_⟩
              · rw [h1.1]; push_cast; ring
              · rw [h1.2.2]
                have : idx + 1 + (j : Int) = idx + ((j : Nat) + 1 : Nat) := by
                  push_cast; ring
                rw [this]

theorem processHits_err_last (f : Nat → Int → Int → Bool → Option ErrMsg)
    (b t : Int) :
    ∀ (hits : List Nat) (idx n : Int) (i : Nat) (c : CallRec) (msg : ErrMsg),
      (processHits f b t hits idx n).calls[i]? = some c →
      f c.item c.nCurrentItem c.nTotalItems c.commit = some msg →
      i + 1 = (processHits f b t hits idx n).calls.length ∧
      (processHits f b t hits idx n).errOpt =
        some (GoErr.wrap "onItem" (GoErr.base msg)) := by
  intro hits
  induction hits with
  | nil => intro idx n i c msg hc _; simp [processHits] at hc
  | cons h rest ih =>
      intro idx n i c msg hc hmsg
      cases hf : f h (n + 1) t (idx == b - 1) with
      | some m =>
          simp only [processHits, hf] at hc ⊢
          cases i with
          | zero =>
              simp at hc
              subst hc
              dsimp only at hmsg
              rw [hf] at hmsg
              injection hmsg with hm
              subst hm
              exact ⟨by simp, rfl⟩
          | succ j => simp at hc
      | none =>
          simp only [processHits, hf] at hc ⊢
          cases i with
          | zero =>
              simp at hc
              subst hc
              dsimp only at hmsg
              rw [hf] at hmsg
              simp at hmsg
          | succ j =>
              simp only [List.getElem?_cons_succ] at hc
              have h1 := ih (idx + 1) (n + 1) j c msg hc hmsg
              simp only [List.length_cons]
              exact ⟨by omega, h1.2⟩

/-! ## Unfolding equations for the scroll loop -/

theorem enumLoop_nil (f : Nat → Int → Int → Bool → Option ErrMsg)
    (n : Int) (sid : String) :
    enumLoop f [] n sid = ⟨[], 0, n, sid, [], none⟩ := rfl

theorem enumLoop_fail (f : Nat → Int → Int → Bool → Option ErrMsg)
    (msg : ErrMsg) (done : Bool) (rest : List (FetchResult × Bool))
    (n : Int) (sid : String) :
    enumLoop f ((FetchResult.fail msg, done) :: rest) n sid =
      ⟨[], 1, n, sid, [GoErr.wrap "Do" (GoErr.base msg)],
        some LoopExit.fetchErr⟩ := rfl

theorem enumLoop_eof (f : Nat → Int → Int → Bool → Option ErrMsg)
    (done : Bool) (rest : List (FetchResult × Bool)) (n : Int) (sid : String) :
    enumLoop f ((FetchResult.eof, done) :: rest) n sid =
      ⟨[], 1, n, sid, [], some LoopExit.eof⟩ := rfl

theorem enumLoop_page_cancel (f : Nat → Int → Int → Bool → Option ErrMsg)
    (p : Page) (rest : List (FetchResult × Bool)) (n : Int) (sid : String) :
    enumLoop f ((FetchResult.page p, true) :: rest) n sid =
      ⟨[⟨p.hits, (pageHits f p n).calls⟩], 1, (pageHits f p n).n, p.scrollId,
        (pageHits f p n).errOpt.toList, some LoopExit.cancel⟩ := rfl

theorem enumLoop_page_err (f : Nat → Int → Int → Bool → Option ErrMsg)
    (p : Page) (rest : List (FetchResult × Bool)) (n : Int) (sid : String)
    (e : GoErr) (he : (pageHits f p n).errOpt = some e) :
    enumLoop f ((FetchResult.page p, false) :: rest) n sid =
      ⟨[⟨p.hits, (pageHits f p n).calls⟩], 1, (pageHits f p n).n, p.scrollId,
        [e], some LoopExit.onItemErr⟩ := by
  have he2 : (processHits f ((p.hits.length : Int)) p.total p.hits 0 n).errOpt
      = some e := he
  simp only [enumLoop, he2]
  rfl

theorem enumLoop_page_ok (f : Nat → Int → Int → Bool → Option ErrMsg)
    (p : Page) (rest : List (FetchResult × Bool)) (n : Int) (sid : String)
    (he : (pageHits f p n).errOpt = none) :
    enumLoop f ((FetchResult.page p, false) :: rest) n sid =
      ⟨⟨p.hits, (pageHits f p n).calls⟩ ::
          (enumLoop f rest (pageHits f p n).n p.scrollId).pages,
        (enumLoop f rest (pageHits f p n).n p.scrollId).fetchCount + 1,
        (enumLoop f rest (pageHits f p n).n p.scrollId).nFinal,
        (enumLoop f rest (pageHits f p n).n p.scrollId).scrollId,
        (enumLoop f rest (pageHits f p n).n p.scrollId).errs,
        (enumLoop f rest (pageHits f p n).n p.scrollId).exit⟩ := by
  have he2 : (processHits f ((p.hits.length : Int)) p.total p.hits 0 n).errOpt
      = none := he
  simp only [enumLoop, he2]
  rfl

/-! ## Lemmas about the scroll loop -/

theorem pageHits_n_eq (f : Nat → Int → Int → Bool → Option ErrMsg)
    (p : Page) (n : Int) :
    (pageHits f p n).n = n + (pageHits f p n).calls.length :=
  processHits_n_eq f ((p.hits.length : Int)) p.total p.hits 0 n

theorem pageHits_length_le (f : Nat → Int → Int → Bool → Option ErrMsg)
    (p : Page) (n : Int) :
    (pageHits f p n).calls.length ≤ p.hits.length :=
  processHits_length_le f ((p.hits.length : Int)) p.total p.hits 0 n

theorem enumLoop_ordinal (f : Nat → Int → Int → Bool → Option ErrMsg) :
    ∀ (steps : List (FetchResult × Bool)) (n : Int) (sid : String)
      (i : Nat) (c : CallRec),
      (loopCalls (enumLoop f steps n sid))[i]? = some c →
      c.nCurrentItem = n + (i : Int) + 1 := by
  intro steps
  induction steps with
  | nil => intro n sid i c hc; simp [enumLoop_nil, loopCalls] at hc
  | cons st rest ih =>
      obtain ⟨step, done⟩ := st
      intro n sid i c hc
      cases step with
      | fail msg => simp [enumLoop_fail, loopCalls] at hc
      | eof => simp [enumLoop_eof, loopCalls] at hc
      | page p =>
          cases done with
          | true =>
              rw [enumLoop_page_cancel] at hc
              simp only [loopCalls, List.map_cons, List.map_nil,
                List.flatten_cons, List.flatten_nil, List.append_nil] at hc
              exact (processHits_get f _ _ p.hits 0 n i c hc).1
          | false =>
              cases he : (pageHits f p n).errOpt with
              | some e =>
                  rw [enumLoop_page_err f p rest n sid e he] at hc
                  simp only [loopCalls, List.map_cons, List.map_nil,
                    List.flatten_cons, List.flatten_nil, List.append_nil] at hc
                  exact (processHits_get f _ _ p.hits 0 n i c hc).1
              | none =>
                  rw [enumLoop_page_ok f p rest n sid he] at hc
                  simp only [loopCalls, List.map_cons, List.flatten_cons] at hc
                  rcases Nat.lt_or_ge i (pageHits f p n).calls.length with hlt | hge
                  · rw [List.getElem?_append_left hlt] at hc
                    exact (processHits_get f _ _ p.hits 0 n i c hc).1
                  · rw [List.getElem?_append_right hge] at hc
                    have h1 := ih (pageHits f p n).n p.scrollId
                      (i - (pageHits f p n).calls.length) c hc
                    rw [pageHits_n_eq] at h1
                    rw [h1]
                    omega

theorem enumLoop_nFinal (f : Nat → Int → Int → Bool → Option ErrMsg) :
    ∀ (steps : List (FetchResult × Bool)) (n : Int) (sid : String),
      (enumLoop f steps n sid).nFinal =
        n + (loopCalls (enumLoop f steps n sid)).length := by
  intro steps
  induction steps with
  | nil => intro n sid; simp [enumLoop_nil, loopCalls]
  | cons st rest ih =>
      obtain ⟨step, done⟩ := st
      intro n sid
      cases step with
      | fail msg => simp [enumLoop_fail, loopCalls]
      | eof => simp [enumLoop_eof, loopCalls]
      | page p =>
          cases done with
          | true =>
              rw [enumLoop_page_cancel]
              simp only [loopCalls, List.map_cons, List.map_nil,
                List.flatten_cons, List.flatten_nil, List.append_nil]
              exact pageHits_n_eq f p n
          | false =>
              cases he : (pageHits f p n).errOpt with
              | some e =>
                  rw [enumLoop_page_err f p rest n sid e he]
                  simp only [loopCalls, List.map_cons, List.map_nil,
                    List.flatten_cons, List.flatten_nil, List.append_nil]
                  exact pageHits_n_eq f p n
              | none =>
                  rw [enumLoop_page_ok f p rest n sid he]
                  simp only [loopCalls, List.map_cons, List.flatten_cons,
                    List.length_append]
                  have h1 := ih (pageHits f p n).n p.scrollId
                  have h2 := pageHits_n_eq f p n
                  simp only [loopCalls] at h1
                  rw [h1, h2]
                  push_cast
                  ring

theorem enumLoop_pages (f : Nat → Int → Int → Bool → Option ErrMsg) :
    ∀ (steps : List (FetchResult × Bool)) (n : Int) (sid : String)
      (pt : PageTrace), pt ∈ (enumLoop f steps n sid).pages →
      pt.calls.length ≤ pt.hits.length ∧
      (∀ (i : Nat) (c : CallRec), pt.calls[i]? = some c →
        (c.commit = true ↔ i + 1 = pt.hits.length)) := by
  intro steps
  induction steps with
  | nil => intro n sid pt hpt; simp [enumLoop_nil] at hpt
  | cons st rest ih =>
      obtain ⟨step, done⟩ := st
      intro n sid pt hpt
      cases step with
      | fail msg => simp [enumLoop_fail] at hpt
      | eof => simp [enumLoop_eof] at hpt
      | page p =>
          cases done with
          | true =>
              rw [enumLoop_page_cancel] at hpt
              simp only [List.mem_singleton] at hpt
              subst hpt
              refine ⟨pageHits_length_le f p n, ?_⟩
              intro i c hc
              have h1 := (processHits_get f _ _ p.hits 0 n i c hc).2.2
              rw [h1]
              simp only [beq_iff_eq]
              omega
          | false =>
              cases he : (pageHits f p n).errOpt with
              | some e =>
                  rw [enumLoop_page_err f p rest n sid e he] at hpt
                  simp only [List.mem_singleton] at hpt
                  subst hpt
                  refine ⟨pageHits_length_le f p n, ?_⟩
                  intro i c hc
                  have h1 := (processHits_get f _ _ p.hits 0 n i c hc).2.2
                  rw [h1]
                  simp only [beq_iff_eq]
                  omega
              | none =>
                  rw [enumLoop_page_ok f p rest n sid he] at hpt
                  simp only [List.mem_cons] at hpt
                  cases hpt with
                  | inl hpt =>
                      subst hpt
                      refine ⟨pageHits_length_le f p n, ?_⟩
                      intro i c hc
                      have h1 := (processHits_get f _ _ p.hits 0 n i c hc).2.2
                      rw [h1]
                      simp only [beq_iff_eq]
                      omega
                  | inr hpt => exact ih (pageHits f p n).n p.scrollId pt hpt

theorem enumLoop_err (f : Nat → Int → Int → Bool → Option ErrMsg) :
    ∀ (steps : List (FetchResult × Bool)) (n : Int) (sid : String)
      (j : Nat) (pt : PageTrace) (i : Nat) (c : CallRec) (msg : ErrMsg),
      (enumLoop f steps n sid).pages[j]? = some pt →
      pt.calls[i]? = some c →
      f c.item c.nCurrentItem c.nTotalItems c.commit = some msg →
      GoErr.wrap "onItem" (GoErr.base msg) ∈ (enumLoop f steps n sid).errs ∧
      i + 1 = pt.calls.length ∧
      j + 1 = (enumLoop f steps n sid).pages.length ∧
      (enumLoop f steps n sid).fetchCount = (enumLoop f steps n sid).pages.length := by
  intro steps
  induction steps with
  | nil => intro n sid j pt i c msg hj _ _; simp [enumLoop_nil] at hj
  | cons st rest ih =>
      obtain ⟨step, done⟩ := st
      intro n sid j pt i c msg hj hc hmsg
      cases step with
      | fail m => simp [enumLoop_fail] at hj
      | eof => simp [enumLoop_eof] at hj
      | page p =>
          cases done with
          | true =>
              rw [enumLoop_page_cancel] at hj ⊢
              cases j with
              | zero =>
                  simp only [List.getElem?_cons_zero, Option.some.injEq] at hj
                  subst hj
                  have h1 := processHits_err_last f _ _ p.hits 0 n i c msg hc hmsg
                  refine ⟨?_, h1.1, by simp, by simp⟩
                  have h2 : (pageHits f p n).errOpt =
                      some (GoErr.wrap "onItem" (GoErr.base msg)) := h1.2
                  simp [h2]
              | succ j2 => simp at hj
          | false =>
              cases he : (pageHits f p n).errOpt with
              | some e =>
                  rw [enumLoop_page_err f p rest n sid e he] at hj ⊢
                  cases j with
                  | zero =>
                      simp only [List.getElem?_cons_zero, Option.some.injEq] at hj
                      subst hj
                      have h1 := processHits_err_last f _ _ p.hits 0 n i c msg hc hmsg
                      have h2 : (pageHits f p n).errOpt =
                          some (GoErr.wrap "onItem" (GoErr.base msg)) := h1.2
                      rw [he] at h2
                      injection h2 with h2
                      subst h2
                      exact ⟨by simp, h1.1, by simp, by simp⟩
                  | succ j2 => simp at hj
              | none =>
                  rw [enumLoop_page_ok f p rest n sid he] at hj ⊢
                  cases j with
                  | zero =>
                      simp only [List.getElem?_cons_zero, Option.some.injEq] at hj
                      subst hj
                      have h1 := processHits_err_last f _ _ p.hits 0 n i c msg hc hmsg
                      have h2 : (pageHits f p n).errOpt =
                          some (GoErr.wrap "onItem" (GoErr.base msg)) := h1.2
                      rw [he] at h2
                      exact absurd h2 (by simp)
                  | succ j2 =>
                      simp only [List.getElem?_cons_succ] at hj
                      have h1 := ih (pageHits f p n).n p.scrollId j2 pt i c msg hj hc hmsg
                      refine ⟨h1.1, h1.2.1, ?_, ?_⟩
                      · simp only [List.length_cons]
                        omega
                      · simp only [List.length_cons]
                        omega

theorem enumLoop_cancel_fetch (f : Nat → Int → Int → Bool → Option ErrMsg) :
    ∀ (steps : List (FetchResult × Bool)) (n : Int) (sid : String),
      (enumLoop f steps n sid).exit = some LoopExit.cancel →
      (enumLoop f steps n sid).fetchCount = (enumLoop f steps n sid).pages.length := by
  intro steps
  induction steps with
  | nil => intro n sid hx; simp [enumLoop_nil] at hx
  | cons st rest ih =>
      obtain ⟨step, done⟩ := st
      intro n sid hx
      cases step with
      | fail m => simp [enumLoop_fail] at hx
      | eof => simp [enumLoop_eof] at hx
      | page p =>
          cases done with
          | true => rw [enumLoop_page_cancel]; simp
          | false =>
              cases he : (pageHits f p n).errOpt with
              | some e =>
                  rw [enumLoop_page_err f p rest n sid e he] at hx
                  simp at hx
              | none =>
                  rw [enumLoop_page_ok f p rest n sid he] at hx ⊢
                  have h1 := ih (pageHits f p n).n p.scrollId hx
                  simp only [List.length_cons]
                  omega

theorem enumLoop_extend (f : Nat → Int → Int → Bool → Option ErrMsg) :
    ∀ (steps : List (FetchResult × Bool)) (n : Int) (sid : String)
      (extra : List (FetchResult × Bool)),
      (enumLoop f steps n sid).exit.isSome →
      enumLoop f (steps ++ extra) n sid = enumLoop f steps n sid := by
  intro steps
  induction steps with
  | nil => intro n sid extra hx; simp [enumLoop_nil] at hx
  | cons st rest ih =>
      obtain ⟨step, done⟩ := st
      intro n sid extra hx
      cases step with
      | fail m => rw [List.cons_append, enumLoop_fail, enumLoop_fail]
      | eof => rw [List.cons_append, enumLoop_eof, enumLoop_eof]
      | page p =>
          cases done with
          | true =>
              rw [List.cons_append, enumLoop_page_cancel, enumLoop_page_cancel]
          | false =>
              cases he : (pageHits f p n).errOpt with
              | some e =>
                  rw [List.cons_append, enumLoop_page_err f p (rest ++ extra) n sid e he,
                    enumLoop_page_err f p rest n sid e he]
              | none =>
                  rw [enumLoop_page_ok f p rest n sid he] at hx
                  simp only at hx
                  rw [List.cons_append, enumLoop_page_ok f p (rest ++ extra) n sid he,
                    enumLoop_page_ok f p rest n sid he,
                    ih (pageHits f p n).n p.scrollId extra hx]

theorem enumLoop_errs_shape (f : Nat → Int → Int → Bool → Option ErrMsg) :
    ∀ (steps : List (FetchResult × Bool)) (n : Int) (sid : String) (e : GoErr),
      e ∈ (enumLoop f steps n sid).errs →
      (∃ m, e = GoErr.wrap "Do" (GoErr.base m)) ∨
      (∃ m, e = GoErr.wrap "onItem" (GoErr.base m)) := by
  intro steps
  induction steps with
  | nil => intro n sid e he; simp [enumLoop_nil] at he
  | cons st rest ih =>
      obtain ⟨step, done⟩ := st
      intro n sid e he
      cases step with
      | fail m =>
          rw [enumLoop_fail] at he
          simp only [List.mem_singleton] at he
          exact Or.inl ⟨m, he⟩
      | eof => simp [enumLoop_eof] at he
      | page p =>
          cases done with
          | true =>
              rw [enumLoop_page_cancel] at he
              simp only at he
              cases processHits_errOpt_shape f ((p.hits.length : Int)) p.total
                  p.hits 0 n with
              | inl h0 =>
                  have h0b : (pageHits f p n).errOpt = none := h0
                  rw [h0b] at he
                  simp at he
              | inr h0 =>
                  obtain ⟨m, h0⟩ := h0
                  have h0b : (pageHits f p n).errOpt =
                      some (GoErr.wrap "onItem" (GoErr.base m)) := h0
                  rw [h0b] at he
                  simp at he
                  exact Or.inr ⟨m, he⟩
          | false =>
              cases he2 : (pageHits f p n).errOpt with
              | some e2 =>
                  rw [enumLoop_page_err f p rest n sid e2 he2] at he
                  simp only [List.mem_singleton] at he
                  subst he
                  cases processHits_errOpt_shape f ((p.hits.length : Int)) p.total
                      p.hits 0 n with
                  | inl h0 =>
                      have h0b : (pageHits f p n).errOpt = none := h0
                      rw [h0b] at he2
                      exact absurd he2 (by simp)
                  | inr h0 =>
                      obtain ⟨m, h0⟩ := h0
                      have h0b : (pageHits f p n).errOpt =
                          some (GoErr.wrap "onItem" (GoErr.base m)) := h0
                      rw [h0b] at he2
                      injection he2 with he2
                      exact Or.inr ⟨m, he2.symm⟩
              | none =>
                  rw [enumLoop_page_ok f p rest n sid he2] at he
                  simp only at he
                  exact ih (pageHits f p n).n p.scrollId e he

/-! ## Lemmas about the assembled `EnumerateItems` -/

theorem EnumerateItems_of_exit_none (env : EnumEnv)
    (f : Nat → Int → Int → Bool → Option ErrMsg)
    (h : (enumLoop f env.steps 0 "").exit = none) :
    EnumerateItems env f = none := by
  simp only [EnumerateItems, h]

theorem EnumerateItems_of_exit_cancel (env : EnumEnv)
    (f : Nat → Int → Int → Bool → Option ErrMsg)
    (h : (enumLoop f env.steps 0 "").exit = some LoopExit.cancel) :
    EnumerateItems env f =
      some ⟨(enumLoop f env.steps 0 "").pages,
        (enumLoop f env.steps 0 "").fetchCount,
        (enumLoop f env.steps 0 "").nFinal,
        (enumLoop f env.steps 0 "").errs,
        (enumLoop f env.steps 0 "").errs,
        LoopExit.cancel, EnumReturn.ctxErr⟩ := by
  simp only [EnumerateItems, h]

theorem EnumerateItems_of_exit_other (env : EnumEnv)
    (f : Nat → Int → Int → Bool → Option ErrMsg) (ex : LoopExit)
    (h : (enumLoop f env.steps 0 "").exit = some ex)
    (hne : ex ≠ LoopExit.cancel) :
    EnumerateItems env f =
      some ⟨(enumLoop f env.steps 0 "").pages,
        (enumLoop f env.steps 0 "").fetchCount,
        (enumLoop f env.steps 0 "").nFinal,
        (enumLoop f env.steps 0 "").errs,
        clearAppend (enumLoop f env.steps 0 "").errs
          (enumLoop f env.steps 0 "").scrollId env.clearErr,
        ex,
        errorOrNil (clearAppend (enumLoop f env.steps 0 "").errs
          (enumLoop f env.steps 0 "").scrollId env.clearErr)⟩ := by
  cases ex with
  | cancel => exact absurd rfl hne
  | eof => simp only [EnumerateItems, h]
  | fetchErr => simp only [EnumerateItems, h]
  | onItemErr => simp only [EnumerateItems, h]

theorem EnumerateItems_inv (env : EnumEnv)
    (f : Nat → Int → Int → Bool → Option ErrMsg) (run : EnumRun)
    (h : EnumerateItems env f = some run) :
    (enumLoop f env.steps 0 "").exit = some run.exit ∧
    run.pages = (enumLoop f env.steps 0 "").pages ∧
    run.fetchCount = (enumLoop f env.steps 0 "").fetchCount ∧
    run.nFinal = (enumLoop f env.steps 0 "").nFinal ∧
    run.loopErrs = (enumLoop f env.steps 0 "").errs ∧
    (run.exit = LoopExit.cancel →
      run.errs = (enumLoop f env.steps 0 "").errs ∧
      run.ret = EnumReturn.ctxErr) ∧
    (run.exit ≠ LoopExit.cancel →
      run.errs = clearAppend (enumLoop f env.steps 0 "").errs
        (enumLoop f env.steps 0 "").scrollId env.clearErr ∧
      run.ret = errorOrNil run.errs) := by
  cases hx : (enumLoop f env.steps 0 "").exit with
  | none =>
      rw [EnumerateItems_of_exit_none env f hx] at h
      exact absurd h (by simp)
  | some ex =>
      cases ex with
      | cancel =>
          rw [EnumerateItems_of_exit_cancel env f hx] at h
          injection h with h
          subst h
          exact ⟨rfl, rfl, rfl, rfl, rfl, fun _ => ⟨rfl, rfl⟩,
            fun hne => absurd rfl hne⟩
      | eof =>
          rw [EnumerateItems_of_exit_other env f LoopExit.eof hx (by simp)] at h
          injection h with h
          subst h
          exact ⟨rfl, rfl, rfl, rfl, rfl, fun hcc => absurd hcc (by simp),
            fun _ => ⟨rfl, rfl⟩⟩
      | fetchErr =>
          rw [EnumerateItems_of_exit_other env f LoopExit.fetchErr hx (by simp)] at h
          injection h with h
          subst h
          exact ⟨rfl, rfl, rfl, rfl, rfl, fun hcc => absurd hcc (by simp),
            fun _ => ⟨rfl, rfl⟩⟩
      | onItemErr =>
          rw [EnumerateItems_of_exit_other env f LoopExit.onItemErr hx (by simp)] at h
          injection h with h
          subst h
          exact ⟨rfl, rfl, rfl, rfl, rfl, fun hcc => absurd hcc (by simp),
            fun _ => ⟨rfl, rfl⟩⟩

theorem EnumerateItems_extend (env : EnumEnv)
    (f : Nat → Int → Int → Bool → Option ErrMsg) (run : EnumRun)
    (extra : List (FetchResult × Bool))
    (h : EnumerateItems env f = some run) :
    EnumerateItems (extendEnv env extra) f = some run := by
  have hx : (enumLoop f env.steps 0 "").exit.isSome := by
    cases hxx : (enumLoop f env.steps 0 "").exit with
    | none =>
        rw [EnumerateItems_of_exit_none env f hxx] at h
        exact absurd h (by simp)
    | some ex => simp
  have heq := enumLoop_extend f env.steps 0 "" extra hx
  rw [← h]
  show EnumerateItems (extendEnv env extra) f = EnumerateItems env f
  unfold EnumerateItems
  dsimp only [extendEnv]
  rw [heq]

theorem clearAppend_cases (errs : List GoErr) (sid : String)
    (ce : Option ErrMsg) :
    clearAppend errs sid ce = errs ∨
    ∃ m, clearAppend errs sid ce =
      errs ++ [GoErr.wrap "ClearScroll" (GoErr.base m)] := by
  unfold clearAppend
  cases ClearScroll sid ce with
  | none => exact Or.inl rfl
  | some m => exact Or.inr ⟨m, rfl⟩

theorem errorOrNil_eq_nil_iff (errs : List GoErr) :
    errorOrNil errs = EnumReturn.nil ↔ errs = [] := by
  unfold errorOrNil
  split
  · simp_all
  · simp_all

theorem errorOrNil_of_ne (errs : List GoErr) (h : errs ≠ []) :
    errorOrNil errs = EnumReturn.multi errs := by
  unfold errorOrNil
  split
  · simp_all
  · rfl

theorem countP_commit_eq :
    ∀ (xs : List CallRec) (K : Nat),
      (∀ (i : Nat) (c : CallRec), xs[i]? = some c →
        (c.commit = true ↔ i + 1 = K)) →
      xs.length ≤ K →
      xs.countP (fun c => c.commit) = if xs.length = K ∧ 0 < K then 1 else 0 := by
  intro xs
  induction xs with
  | nil =>
      intro K h hK
      simp only [List.countP_nil, List.length_nil]
      split
      · omega
      · rfl
  | cons x tl ih =>
      intro K h hK
      have hx := h 0 x (by simp)
      simp only [List.length_cons] at hK
      rw [List.countP_cons]
      by_cases h1 : K = 1
      · subst h1
        have hxc : x.commit = true := hx.mpr rfl
        have htl : tl = [] := by
          cases tl with
          | nil => rfl
          | cons y ys => simp at hK
        subst htl
        simp [hxc]
      · have hK2 : 2 ≤ K := by omega
        have hxc : x.commit = false := by
          cases hc : x.commit with
          | false => rfl
          | true => exact absurd (hx.mp hc) (by omega)
        have htl := ih (K - 1) ?_ (by omega)
        · simp only [List.countP_cons, hxc, Bool.false_eq_true, if_false,
            add_zero, htl, List.length_cons]
          exact if_congr (by omega) rfl rfl
        · intro i c hci
          have h2 := h (i + 1) c (by simpa using hci)
          constructor
          · intro hcm
            have := h2.mp hcm
            omega
          · intro hi
            exact h2.mpr (by omega)

/-! ## Claim theorems -/

/-- C1: `EnumerateItems` returns a combined error value aggregating all
failures of one (non-cancelled) enumeration pass: the return value is
`nil` exactly when zero errors were accumulated, otherwise it is the
aggregate itself; the loop collects exactly callback (`"onItem"`) and
fetch (`"Do"`) errors, and a cursor-release error is appended to that
same aggregate rather than replacing it. -/
theorem enumerateItems_error_aggregation (env : EnumEnv)
    (f : Nat → Int → Int → Bool → Option ErrMsg) (run : EnumRun)
    (h : EnumerateItems env f = some run) (hnc : run.exit ≠ LoopExit.cancel) :
    (run.ret = EnumReturn.nil ↔ run.errs = []) ∧
    (run.errs ≠ [] → run.ret = EnumReturn.multi run.errs) ∧
    (run.errs = run.loopErrs ∨
      ∃ m, run.errs = run.loopErrs ++ [GoErr.wrap "ClearScroll" (GoErr.base m)]) ∧
    (∀ e ∈ run.loopErrs,
      (∃ m, e = GoErr.wrap "Do" (GoErr.base m)) ∨
      (∃ m, e = GoErr.wrap "onItem" (GoErr.base m))) := by
  obtain ⟨hx, hpages, hfc, hnf, hle, hcan, hoth⟩ := EnumerateItems_inv env f run h
  obtain ⟨herrs, hret⟩ := hoth hnc
  refine ⟨?_, ?_, ?_, ?_⟩
  · rw [hret]
    exact errorOrNil_eq_nil_iff run.errs
  · intro hne
    rw [hret]
    exact errorOrNil_of_ne run.errs hne
  · rw [herrs, hle]
    exact clearAppend_cases (enumLoop f env.steps 0 "").errs
      (enumLoop f env.steps 0 "").scrollId env.clearErr
  · intro e he
    rw [hle] at he
    exact enumLoop_errs_shape f env.steps 0 "" e he

/-- Closed instance of C1: one page is delivered, then the fetch fails
and the cursor release fails too; the return value is the aggregate of
both errors, release error appended last. -/
theorem enumerateItems_error_aggregation_witness :
    EnumerateItems envA fNone = some runA ∧
    runA.exit ≠ LoopExit.cancel ∧
    ((runA.ret = EnumReturn.nil ↔ runA.errs = []) ∧
     (runA.errs ≠ [] → runA.ret = EnumReturn.multi runA.errs) ∧
     (runA.errs = runA.loopErrs ∨
       ∃ m, runA.errs = runA.loopErrs ++ [GoErr.wrap "ClearScroll" (GoErr.base m)]) ∧
     (∀ e ∈ runA.loopErrs,
       (∃ m, e = GoErr.wrap "Do" (GoErr.base m)) ∨
       (∃ m, e = GoErr.wrap "onItem" (GoErr.base m)))) :=
  ⟨by decide, by decide,
    enumerateItems_error_aggregation envA fNone runA (by decide) (by decide)⟩

/-- C2: over one enumeration run the ordinal passed to the callback is
`i + 1` for the `i`-th delivered call (so it starts at `1` and grows by
exactly `1` across page boundaries), and the final ordinal value equals
the total number of items delivered over all pages. -/
theorem enumerateItems_ordinal_sequence (env : EnumEnv)
    (f : Nat → Int → Int → Bool → Option ErrMsg) (run : EnumRun)
    (h : EnumerateItems env f = some run) :
    (∀ (i : Nat) (c : CallRec), (runCalls run)[i]? = some c →
      c.nCurrentItem = (i : Int) + 1) ∧
    run.nFinal = ((runCalls run).length : Int) := by
  obtain ⟨hx, hpages, hfc, hnf, hle, hcan, hoth⟩ := EnumerateItems_inv env f run h
  have hrc : runCalls run = loopCalls (enumLoop f env.steps 0 "") := by
    rw [runCalls, loopCalls, hpages]
  constructor
  · intro i c hc
    rw [hrc] at hc
    have h1 := enumLoop_ordinal f env.steps 0 "" i c hc
    omega
  · rw [hnf, hrc, enumLoop_nFinal]
    omega

/-- Closed instance of C2: two pages of two and one item, ordinals
`1, 2, 3`, final counter `3 =` the number of delivered items. -/
theorem enumerateItems_ordinal_sequence_witness :
    EnumerateItems envB fNone = some runB ∧
    ((∀ (i : Nat) (c : CallRec), (runCalls runB)[i]? = some c →
       c.nCurrentItem = (i : Int) + 1) ∧
     runB.nFinal = ((runCalls runB).length : Int)) :=
  ⟨by decide, enumerateItems_ordinal_sequence envB fNone runB (by decide)⟩

/-- C3, counterexample to the claim as stated: with a two-hit page whose
first callback invocation fails, the page is processed but the `commit`
flag is never `true` on it (the callback saw only `false`), so "the
commit flag is true exactly once per page" fails for this processed
page. -/
theorem enumerateItems_commit_claim_cex :
    EnumerateItems envC fBoom = some runC ∧
    ¬ (∀ pt ∈ runC.pages, pt.calls.countP (fun c => c.commit) = 1) :=
  ⟨by decide, by decide⟩

/-- C3 as amended: the `commit` flag of a delivered call is `true`
exactly when the call delivers the final hit of its fetched page; hence
a fully delivered nonempty page sees `commit = true` exactly once, on
its final item, while a page cut short by a callback error (never
reaching its final hit) sees it zero times. -/
theorem enumerateItems_commit_last_in_page (env : EnumEnv)
    (f : Nat → Int → Int → Bool → Option ErrMsg) (run : EnumRun)
    (pt : PageTrace)
    (h : EnumerateItems env f = some run) (hpt : pt ∈ run.pages) :
    (∀ (i : Nat) (c : CallRec), pt.calls[i]? = some c →
      (c.commit = true ↔ i + 1 = pt.hits.length)) ∧
    pt.calls.length ≤ pt.hits.length ∧
    (pt.calls.length = pt.hits.length → pt.hits.length ≠ 0 →
      pt.calls.countP (fun c => c.commit) = 1) ∧
    (pt.calls.length ≠ pt.hits.length →
      pt.calls.countP (fun c => c.commit) = 0) := by
  obtain ⟨hx, hpages, hfc, hnf, hle, hcan, hoth⟩ := EnumerateItems_inv env f run h
  rw [hpages] at hpt
  obtain ⟨hlen, hpoint⟩ := enumLoop_pages f env.steps 0 "" pt hpt
  have hcount := countP_commit_eq pt.calls pt.hits.length hpoint hlen
  refine ⟨hpoint, hlen, ?_, ?_⟩
  · intro hfull hnz
    rw [hcount, if_pos ⟨hfull, by omega⟩]
  · intro hpart
    rw [hcount]
    rw [if_neg]
    intro hcc
    exact hpart hcc.1

/-- Closed instance of the amended C3: the cut-short page of `runC`
satisfies the pointwise characterisation and has zero `true` commits. -/
theorem enumerateItems_commit_last_in_page_witness :
    EnumerateItems envC fBoom = some runC ∧
    ptC ∈ runC.pages ∧
    ((∀ (i : Nat) (c : CallRec), ptC.calls[i]? = some c →
       (c.commit = true ↔ i + 1 = ptC.hits.length)) ∧
     ptC.calls.length ≤ ptC.hits.length ∧
     (ptC.calls.length = ptC.hits.length → ptC.hits.length ≠ 0 →
       ptC.calls.countP (fun c => c.commit) = 1) ∧
     (ptC.calls.length ≠ ptC.hits.length →
       ptC.calls.countP (fun c => c.commit) = 0)) :=
  ⟨by decide, by decide,
    enumerateItems_commit_last_in_page envC fBoom runC ptC (by decide) (by decide)⟩

/-- C4: a callback invocation whose `onItem` returns an error is the
last call delivered for its page, that page is the last page of the run,
the wrapped error is recorded in the loop aggregate, no further pages
are fetched (`fetchCount` equals the number of pages seen), and the run
is unchanged under any extension of the fetch stream. -/
theorem enumerateItems_callback_error_stops (env : EnumEnv)
    (f : Nat → Int → Int → Bool → Option ErrMsg) (run : EnumRun)
    (j : Nat) (pt : PageTrace) (i : Nat) (c : CallRec) (msg : ErrMsg)
    (h : EnumerateItems env f = some run)
    (hj : run.pages[j]? = some pt)
    (hc : pt.calls[i]? = some c)
    (hmsg : f c.item c.nCurrentItem c.nTotalItems c.commit = some msg) :
    GoErr.wrap "onItem" (GoErr.base msg) ∈ run.loopErrs ∧
    i + 1 = pt.calls.length ∧
    j + 1 = run.pages.length ∧
    run.fetchCount = run.pages.length ∧
    ∀ extra, EnumerateItems (extendEnv env extra) f = some run := by
  obtain ⟨hx, hpages, hfc, hnf, hle, hcan, hoth⟩ := EnumerateItems_inv env f run h
  rw [hpages] at hj
  obtain ⟨hmem, hi, hjlen, hcnt⟩ := enumLoop_err f env.steps 0 "" j pt i c msg hj hc hmsg
  refine ⟨?_, hi, ?_, ?_, fun extra => EnumerateItems_extend env f run extra h⟩
  · rw [hle]
    exact hmem
  · rw [hpages]
    exact hjlen
  · rw [hfc, hpages]
    exact hcnt

/-- Closed instance of C4: the callback fails on the first item of the
first page; the error is recorded, the page delivery stops there, and no
second fetch happens even when the stream is extended. -/
theorem enumerateItems_callback_error_stops_witness :
    EnumerateItems envC fBoom = some runC ∧
    runC.pages[0]? = some ptC ∧
    ptC.calls[0]? = some cC ∧
    fBoom cC.item cC.nCurrentItem cC.nTotalItems cC.commit = some "boom" ∧
    (GoErr.wrap "onItem" (GoErr.base "boom") ∈ runC.loopErrs ∧
     0 + 1 = ptC.calls.length ∧
     0 + 1 = runC.pages.length ∧
     runC.fetchCount = runC.pages.length ∧
     ∀ extra, EnumerateItems (extendEnv envC extra) fBoom = some runC) :=
  ⟨by decide, by decide, by decide, by decide,
    enumerateItems_callback_error_stops envC fBoom runC 0 ptC 0 cC "boom"
      (by decide) (by decide) (by decide) (by decide)⟩

/-- C5: when the per-page-boundary cancellation check observes
cancellation, `EnumerateItems` returns `ctx.Err()` itself (bypassing the
multi-error aggregation and the final cursor release, so the aggregate
is exactly the loop's), the number of fetches equals the number of pages
already seen, and the run is unchanged under any extension of the fetch
stream: no further page is fetched and no further item is delivered. -/
theorem enumerateItems_cancellation (env : EnumEnv)
    (f : Nat → Int → Int → Bool → Option ErrMsg) (run : EnumRun)
    (h : EnumerateItems env f = some run) (hc : run.exit = LoopExit.cancel) :
    run.ret = EnumReturn.ctxErr ∧
    run.errs = run.loopErrs ∧
    run.fetchCount = run.pages.length ∧
    ∀ extra, EnumerateItems (extendEnv env extra) f = some run := by
  obtain ⟨hx, hpages, hfc, hnf, hle, hcan, hoth⟩ := EnumerateItems_inv env f run h
  obtain ⟨herrs, hret⟩ := hcan hc
  refine ⟨hret, by rw [herrs, hle], ?_,
    fun extra => EnumerateItems_extend env f run extra h⟩
  have hx2 : (enumLoop f env.steps 0 "").exit = some LoopExit.cancel := by
    rw [hx, hc]
  have h1 := enumLoop_cancel_fetch f env.steps 0 "" hx2
  rw [hfc, hpages]
  exact h1

/-- Closed instance of C5: cancellation observed after the first (only
delivered) page; the return value is the cancellation error and the
extra pending fetch outcome of the environment stays unused. -/
theorem enumerateItems_cancellation_witness :
    EnumerateItems envD fNone = some runD ∧
    runD.exit = LoopExit.cancel ∧
    (runD.ret = EnumReturn.ctxErr ∧
     runD.errs = runD.loopErrs ∧
     runD.fetchCount = runD.pages.length ∧
     ∀ extra, EnumerateItems (extendEnv envD extra) fNone = some runD) :=
  ⟨by decide, by decide,
    enumerateItems_cancellation envD fNone runD (by decide) (by decide)⟩

/-- C6: whenever the search result reports zero matching documents,
both point lookups return `ErrEmptyResult` and `json.Unmarshal` is
never invoked on a hit. -/
theorem unmarshal_zero_hits_empty_result (res : SearchHits)
    (decode : Nat → Option ErrMsg) (ts : String)
    (h : res.total = 0) :
    UnmarshalOne (SearchDo.ok res) decode = UnmarshalOut.emptyResult ∧
    decodeAttempted (UnmarshalOne (SearchDo.ok res) decode) = false ∧
    UnmarshalMostRecent ts (SearchDo.ok res) decode = UnmarshalOut.emptyResult ∧
    decodeAttempted (UnmarshalMostRecent ts (SearchDo.ok res) decode) = false := by
  have h1 : UnmarshalOne (SearchDo.ok res) decode = UnmarshalOut.emptyResult := by
    unfold UnmarshalOne
    dsimp only
    rw [if_pos h]
  have h2 : UnmarshalMostRecent ts (SearchDo.ok res) decode =
      UnmarshalOut.emptyResult := by
    unfold UnmarshalMostRecent
    dsimp only
    rw [if_pos h]
  exact ⟨h1, by rw [h1]; rfl, h2, by rw [h2]; rfl⟩

/-- Closed instance of C6 at a zero-hit response. -/
theorem unmarshal_zero_hits_empty_result_witness :
    resZero.total = 0 ∧
    (UnmarshalOne (SearchDo.ok resZero) decNone = UnmarshalOut.emptyResult ∧
     decodeAttempted (UnmarshalOne (SearchDo.ok resZero) decNone) = false ∧
     UnmarshalMostRecent "ts" (SearchDo.ok resZero) decNone =
       UnmarshalOut.emptyResult ∧
     decodeAttempted (UnmarshalMostRecent "ts" (SearchDo.ok resZero) decNone) =
       false) :=
  ⟨by decide,
    unmarshal_zero_hits_empty_result resZero decNone "ts" (by decide)⟩

/-- C10: both point lookups guard the access to the first hit only by
the reported total being nonzero: with a nonzero total and a nonempty
hits array the access is in bounds (no out-of-range outcome), while
with a nonzero total and an empty hits array the access is out of
bounds — no empty-result condition is returned there. -/
theorem unmarshal_first_hit_guard (res : SearchHits)
    (decode : Nat → Option ErrMsg) (ts : String)
    (h : res.total ≠ 0) :
    (res.hits ≠ [] →
      UnmarshalOne (SearchDo.ok res) decode ≠ UnmarshalOut.indexOOB ∧
      UnmarshalMostRecent ts (SearchDo.ok res) decode ≠ UnmarshalOut.indexOOB) ∧
    (res.hits = [] →
      UnmarshalOne (SearchDo.ok res) decode = UnmarshalOut.indexOOB ∧
      UnmarshalMostRecent ts (SearchDo.ok res) decode = UnmarshalOut.indexOOB ∧
      UnmarshalOne (SearchDo.ok res) decode ≠ UnmarshalOut.emptyResult) := by
  constructor
  · intro hne
    cases hh : res.hits with
    | nil => exact absurd hh hne
    | cons a tl =>
        constructor
        · show UnmarshalOne (SearchDo.ok res) decode ≠ UnmarshalOut.indexOOB
          unfold UnmarshalOne
          dsimp only
          rw [if_neg h, hh]
          cases hd : decode a <;> simp [hd]
        · show UnmarshalMostRecent ts (SearchDo.ok res) decode ≠
            UnmarshalOut.indexOOB
          unfold UnmarshalMostRecent
          dsimp only
          rw [if_neg h, hh]
          cases hd : decode a <;> simp [hd]
  · intro he
    have h1 : UnmarshalOne (SearchDo.ok res) decode = UnmarshalOut.indexOOB := by
      unfold UnmarshalOne
      dsimp only
      rw [if_neg h, he]
    have h2 : UnmarshalMostRecent ts (SearchDo.ok res) decode =
        UnmarshalOut.indexOOB := by
      unfold UnmarshalMostRecent
      dsimp only
      rw [if_neg h, he]
    exact ⟨h1, h2, by rw [h1]; simp⟩

/-- Closed instance of C10 at a response with `total = 3` but an empty
hits array: both lookups hit the out-of-range branch. -/
theorem unmarshal_first_hit_guard_witness :
    resPhantom.total ≠ 0 ∧
    ((resPhantom.hits ≠ [] →
       UnmarshalOne (SearchDo.ok resPhantom) decNone ≠ UnmarshalOut.indexOOB ∧
       UnmarshalMostRecent "ts" (SearchDo.ok resPhantom) decNone ≠
         UnmarshalOut.indexOOB) ∧
     (resPhantom.hits = [] →
       UnmarshalOne (SearchDo.ok resPhantom) decNone = UnmarshalOut.indexOOB ∧
       UnmarshalMostRecent "ts" (SearchDo.ok resPhantom) decNone =
         UnmarshalOut.indexOOB ∧
       UnmarshalOne (SearchDo.ok resPhantom) decNone ≠
         UnmarshalOut.emptyResult)) :=
  ⟨by decide,
    unmarshal_first_hit_guard resPhantom decNone "ts" (by decide)⟩

/-- C7, counterexample to the claim as stated: when `client.Do` fails,
`GetIndices` returns the empty mapping together with a `nil` error — the
transport failure is silently swallowed, not wrapped and propagated. -/
theorem getIndices_transport_swallow_cex :
    GetIndices envCatDoFail ["alpha"] = ([], none) := by decide

theorem pfxLoop_snd_none (compile : String → Option (String → String))
    (lines : List String) :
    ∀ (ps : List String) (acc : List (String × List String)),
      (pfxLoop compile lines ps acc).2 = none := by
  intro ps
  induction ps with
  | nil => intro acc; rfl
  | cons q rest ih =>
      intro acc
      unfold pfxLoop
      cases hc : compile (catPattern q) with
      | none => rfl
      | some find => exact ih (matchPfx find q lines acc)

/-- C7 as amended: `GetIndices` never returns a non-nil error for a
transport (`client.Do`) failure — it degrades to the empty mapping with
a `nil` error; the only failure it propagates is the initial
`http.NewRequest` failure, wrapped with tag `"NewRequest"`. -/
theorem getIndices_error_propagation (env : CatEnv) (pfxs : List String) :
    (env.newReqErr = none → env.httpDo = none →
      GetIndices env pfxs = ([], none)) ∧
    (∀ e, env.newReqErr = some e →
      GetIndices env pfxs =
        ([], some (GoErr.wrap "NewRequest" (GoErr.base e)))) ∧
    (env.newReqErr = none → (GetIndices env pfxs).2 = none) := by
  refine ⟨?_, ?_, ?_⟩
  · intro h1 h2
    unfold GetIndices
    rw [h1, h2]
  · intro e h1
    unfold GetIndices
    rw [h1]
  · intro h1
    unfold GetIndices
    rw [h1]
    cases h2 : env.httpDo with
    | none => rfl
    | some lines => exact pfxLoop_snd_none env.compile lines pfxs []

/-- Closed instance of the amended C7: a transport failure yields the
empty mapping with a `nil` error; a request-construction failure yields
the wrapped non-nil error. -/
theorem getIndices_error_propagation_witness :
    (envCatDoFail.newReqErr = none ∧ envCatDoFail.httpDo = none ∧
      GetIndices envCatDoFail ["beta"] = ([], none)) ∧
    (envCatReqFail.newReqErr = some "badreq" ∧
      GetIndices envCatReqFail ["beta"] =
        ([], some (GoErr.wrap "NewRequest" (GoErr.base "badreq")))) :=
  ⟨⟨rfl, rfl, (getIndices_error_propagation envCatDoFail ["beta"]).1 rfl rfl⟩,
   ⟨rfl, (getIndices_error_propagation envCatReqFail ["beta"]).2.1 "badreq" rfl⟩⟩

/-- C8, counterexample to the claim as stated: with the malformed entry
`"("` first, the later entry `"alpha"` is never matched — the result is
empty — although `"alpha"` alone does match `alpha-0` in the same
catalog.  No error is returned in either case. -/
theorem getIndices_malformed_cex :
    GetIndices envCatSmall ["(", "alpha"] = ([], none) ∧
    GetIndices envCatSmall ["alpha"] = ([("alpha", ["alpha-0"])], none) :=
  ⟨by decide, by decide⟩

theorem pfxLoop_stop (compile : String → Option (String → String))
    (lines : List String) (p : String)
    (h : compile (catPattern p) = none) :
    ∀ (ps1 ps2 : List String) (acc : List (String × List String)),
      pfxLoop compile lines (ps1 ++ p :: ps2) acc =
        pfxLoop compile lines ps1 acc := by
  intro ps1
  induction ps1 with
  | nil =>
      intro ps2 acc
      simp only [List.nil_append]
      unfold pfxLoop
      rw [h]
  | cons q rest ih =>
      intro ps2 acc
      simp only [List.cons_append]
      unfold pfxLoop
      cases hc : compile (catPattern q) with
      | none => rfl
      | some find => exact ih ps2 (matchPfx find q lines acc)

/-- C8 as amended: a malformed entry makes `GetIndices` return
immediately: the result is exactly the result for the entries preceding
the malformed one (so the malformed entry and every later entry yield
no matches), and the returned error is still `nil`. -/
theorem getIndices_malformed_stops_loop (env : CatEnv) (ps1 : List String)
    (p : String) (ps2 : List String)
    (h : env.compile (catPattern p) = none) :
    GetIndices env (ps1 ++ p :: ps2) = GetIndices env ps1 ∧
    (env.newReqErr = none → (GetIndices env (ps1 ++ p :: ps2)).2 = none) := by
  constructor
  · unfold GetIndices
    cases h1 : env.newReqErr with
    | some e => rfl
    | none =>
        cases h2 : env.httpDo with
        | none => rfl
        | some lines => exact pfxLoop_stop env.compile lines p h ps1 ps2 []
  · intro h1
    exact (getIndices_error_propagation env (ps1 ++ p :: ps2)).2.2 h1

/-- Closed instance of the amended C8: with entries
`["alpha", "(", "beta"]` the result equals the result for `["alpha"]`
alone, with a `nil` error. -/
theorem getIndices_malformed_stops_loop_witness :
    envCatSmall.compile (catPattern "(") = none ∧
    (GetIndices envCatSmall (["alpha"] ++ "(" :: ["beta"]) =
       GetIndices envCatSmall ["alpha"] ∧
     (envCatSmall.newReqErr = none →
       (GetIndices envCatSmall (["alpha"] ++ "(" :: ["beta"])).2 = none)) :=
  ⟨rfl, getIndices_malformed_stops_loop envCatSmall ["alpha"] "(" ["beta"] rfl⟩

/-- C9: on a catalog listing `alpha-0`, `alpha-1`, `gamma-0` (in that
order) and input entries `["alpha", "beta"]`, discovery returns the
mapping with the single key `"alpha"` bound to `["alpha-0", "alpha-1"]`
in catalog order, no `"beta"` key, and a `nil` error. -/
theorem getIndices_discovery_example :
    GetIndices envCat ["alpha", "beta"] =
      ([("alpha", ["alpha-0", "alpha-1"])], none) := by decide

end ES
